import Mathlib

/-!
Verification development for the tfbindiff binary-diff tool.

The definitions below are a shallow embedding of the repository's Rust
sources (`src/compare.rs`, `src/instruction_wrapper.rs`, `src/matcher.rs`,
`src/program.rs`, `src/eh_frame.rs`).  Machine integers are modelled as
`Nat`/`Int` with explicit wrapping where the code wraps; panicking code
(`todo!`, `assert!`, `unwrap`, out-of-bounds slicing) is modelled by a
distinguished `panic` outcome; fallible code returns `Option` or a
result type with a typed error constructor.

The x86 decoder (`iced_x86`) is an external library.  Decoded
instructions are modelled by the `Instruction` structure below, which
carries exactly the data the repository reads from a decoded
instruction: the opcode identity (`Code`), the mnemonic, the opcode
table's operand-kind tuple (`op_code().op_kinds()`, a function of the
opcode identity in the library), the runtime operands with their
payloads, and the instruction pointer.  The decoder itself is passed
around as an explicit function parameter `DecodeFn`, mirroring the
code's use of the library as a black box.
-/

set_option linter.unusedVariables false

/-- Register identities exposed by the external x86 decoder.  `noneReg`
models `iced_x86::Register::None`, which `op_register` returns for an
operand that is not a register operand. -/
inductive Reg where
  | noneReg | eax | ecx | edx | ebx | esp | ebp | esi | edi
  | otherReg (n : Nat)
  deriving DecidableEq

/-- Operand kinds exposed by the external decoder (`iced_x86::OpKind`),
restricted to the kinds the repository inspects plus a catch-all. -/
inductive OpKindTag where
  | register | nearBranch32 | immediate8to32 | immediate32 | memory
  | otherKind (n : Nat)
  deriving DecidableEq

/-- A runtime operand of a decoded instruction together with its
payload.  Immediate and displacement payloads are carried here; the
repository's structural equality never reads them. -/
inductive Operand where
  | register (r : Reg)
  | nearBranch32 (target : Nat)
  | immediate8to32 (value : Int)
  | immediate32 (value : Nat)
  | memory (base : Reg) (index : Reg) (displ : Nat)
  | otherOperand (kind : Nat)
  deriving DecidableEq

/-- The `op_kind` of an operand. -/
def opKindOf : Operand → OpKindTag
  | .register _ => .register
  | .nearBranch32 _ => .nearBranch32
  | .immediate8to32 _ => .immediate8to32
  | .immediate32 _ => .immediate32
  | .memory _ _ _ => .memory
  | .otherOperand n => .otherKind n

/-- The `op_register` of an operand: the register identity for a
register operand, `Register::None` otherwise. -/
def opRegisterOf : Operand → Reg
  | .register r => r
  | _ => .noneReg

/-- Instruction mnemonics (`iced_x86::Mnemonic`), restricted to the
mnemonics the repository inspects plus a catch-all. -/
inductive Mnemonic where
  | sub | mov | nop | ret | otherMnemonic (n : Nat)
  deriving DecidableEq

/-- A decoded x86 instruction as observed by the repository.
`code` is the opcode identity (`Instruction::code`), `opCodeOpKinds`
models `op_code().op_kinds()` (the opcode table's operand-kind tuple,
which in the library is a function of `code`), `operands` are the
runtime operands (`op_count`, `op_kind`, `op_register`, immediates),
and `ip` is the instruction-pointer value. -/
structure Instruction where
  code : Nat
  mnemonic : Mnemonic
  opCodeOpKinds : List Nat
  operands : List Operand
  ip : Nat
  deriving DecidableEq

/-- Operand access `op_kind(i)`/`op_register(i)`; out-of-range access
never happens on the paths the code takes (the loop in the structural
equality is bounded by `op_count`), a default operand keeps the
function total. -/
def Instruction.opGet (instr : Instruction) (i : Nat) : Operand :=
  instr.operands.getD i (Operand.otherOperand 0)

/-- Structural instruction equality from
`impl PartialEq for InstructionWrapper` (src/instruction_wrapper.rs):
equal `code`, equal `op_code().op_kinds()`, and, for every operand
index below `self`'s `op_count` whose (runtime) kind is `Register`,
equal `op_register`. -/
def instructionWrapperEq (a other : Instruction) : Bool :=
  if a.code == other.code && a.opCodeOpKinds == other.opCodeOpKinds then
    (List.range a.operands.length).all fun opIdx =>
      if opKindOf (a.opGet opIdx) == OpKindTag.register then
        opRegisterOf (a.opGet opIdx) == opRegisterOf (other.opGet opIdx)
      else
        true
  else
    false

/-- `get_stack_depth_from_instruction` (src/compare.rs): the immediate
of operand 1 as an `i64`; `Immediate8to32` is the sign-extended `i32`
immediate, `Immediate32` the zero-extended `u32` immediate.  Any other
operand-1 kind hits `todo!` — modelled as `none` (panic). -/
def get_stack_depth_from_instruction (instr : Instruction) : Option Int :=
  match instr.opGet 1 with
  | .immediate8to32 v => some v
  | .immediate32 v => some (Int.ofNat v)
  | _ => none

/-- The stack-depth probe's guard inside `compare_functions`
(src/compare.rs lines 52–57): `instr1` is a `SUB` whose operand 0 is
the register `ESP`, and `instr2`'s operand 0 is the register `ESP`. -/
def subEspProbe (instr1 instr2 : Instruction) : Bool :=
  instr1.mnemonic == Mnemonic.sub
    && opKindOf (instr1.opGet 0) == OpKindTag.register
    && opRegisterOf (instr1.opGet 0) == Reg.esp
    && opKindOf (instr2.opGet 0) == OpKindTag.register
    && opRegisterOf (instr2.opGet 0) == Reg.esp

/-- Result of a computation that can panic (`todo!`, `assert!`,
`unwrap`, out-of-bounds indexing). -/
inductive PanicOr (α : Type) where
  | ok (value : α)
  | panic
  deriving DecidableEq

/-- The `zip_longest` scan of `compare_functions` (src/compare.rs lines
41–73), computing the `has_difference` flag: `some b` when the loop
finishes with `has_difference = b`, `none` when the stack-depth probe
panics.  A structural mismatch or an exhausted side sets the flag and
breaks; a SUB-ESP pair compares the two stack depths and breaks either
way. -/
def compareHasDifference : List Instruction → List Instruction → Option Bool
  | instr1 :: rest1, instr2 :: rest2 =>
    if !(instructionWrapperEq instr1 instr2) then
      some true
    else if subEspProbe instr1 instr2 then
      match get_stack_depth_from_instruction instr1,
            get_stack_depth_from_instruction instr2 with
      | some d1, some d2 => some (d1 != d2)
      | _, _ => none
    else
      compareHasDifference rest1 rest2
  | [], [] => some false
  | _, _ => some true

/-- Result of comparing one matched pair (src/compare.rs
`CompareResult`); `Differs` carries the two collected instruction
vectors (`CompareInfo.instructions`). -/
inductive CompareResult where
  | Same : CompareResult
  | Differs (instructions1 instructions2 : List Instruction) : CompareResult
  deriving DecidableEq

/-- The external decoder as a black box: from the bitness
(`pointer_size * 8`), the code bytes and the starting instruction
pointer, a finite list of decoded instructions
(`Decoder::with_ip` + the `InstructionIter` in
src/instruction_wrapper.rs). -/
def DecodeFn : Type := Nat → List Nat → Nat → List Instruction

/-- A named function extracted from the binary (src/program.rs
`Function`): start address and owned code bytes. -/
structure Function where
  address : Nat
  content : List Nat
  deriving DecidableEq

/-- A loaded program (src/program.rs `Program`).  The two hash maps are
modelled as association lists; iteration order is the list order and
the theorems quantify over it. -/
structure Program where
  pointer_size : Nat
  functions : List (String × Function)
  symbol_map : List (Nat × String)
  deriving DecidableEq

/-- `HashMap::get`: first entry with the given key. -/
def alistGet {κ α : Type} [BEq κ] : List (κ × α) → κ → Option α
  | [], _ => none
  | (k, v) :: rest, key => if k == key then some v else alistGet rest key

/-- `create_instruction_iter` (src/compare.rs): decode the function's
content at its address with the program's pointer size.
`get_data_for_function` is not present in src; modelled from the spec:
a `Function`'s `content` is the exact owned code-byte slice of the
function, so the lookup returns it directly. -/
def create_instruction_iter (decode : DecodeFn) (program : Program)
    (func : Function) : List Instruction :=
  decode (program.pointer_size * 8) func.content func.address

/-- `compare_functions` (src/compare.rs lines 30–84): run the scan; on
a recorded difference collect both instruction streams into `Differs`,
otherwise return `Same`; a probe panic propagates. -/
def compare_functions (decode : DecodeFn) (program1 program2 : Program)
    (func1 func2 : Function) : PanicOr CompareResult :=
  let instructions1 := create_instruction_iter decode program1 func1
  let instructions2 := create_instruction_iter decode program2 func2
  match compareHasDifference instructions1 instructions2 with
  | some true => PanicOr.ok (CompareResult.Differs instructions1 instructions2)
  | some false => PanicOr.ok CompareResult.Same
  | none => PanicOr.panic

/-! ## Function matcher (src/matcher.rs)

The static-initializer pattern is the `regex_lite` expression
`^_?_GLOBAL__sub_I_(.*)\.stdout\.rel_tf_osx_builder\..*\.ii$`; it is
modelled concretely below.  In the pattern, `.` matches any character
except a line feed, the capture group is greedy (longest capture such
that the remainder still matches), and the whole string is anchored. -/

/-- Test whether `p` is a list prefix of `s`. -/
def listIsPre : List Char → List Char → Bool
  | [], _ => true
  | _ :: _, [] => false
  | a :: as, b :: bs => a == b && listIsPre as bs

/-- Drop the prefix `p` from `s` when it is one. -/
def dropPre (p s : List Char) : Option (List Char) :=
  if listIsPre p s then some (s.drop p.length) else none

/-- Characters of the literal part of the pattern following the
capture group. -/
def stdoutMarker : List Char := (".stdout.rel_tf_osx_builder.").data

/-- Characters of the fixed static-initializer stem. -/
def globalSubStem : List Char := ("_GLOBAL__sub_I_").data

/-- No line feed among the characters (regex `.` never matches one). -/
def noLineFeed (l : List Char) : Bool :=
  l.all fun c => c != '\n'

/-- Does `t` match `\.stdout\.rel_tf_osx_builder\..*\.ii$`?  `t` must
start with the literal marker and the remainder must be `m ++ ".ii"`
for some line-feed-free `m`. -/
def tailMatch (t : List Char) : Bool :=
  match dropPre stdoutMarker t with
  | none => false
  | some r =>
    decide (3 ≤ r.length) && r.drop (r.length - 3) == ['.', 'i', 'i']
      && noLineFeed (r.take (r.length - 3))

/-- Is splitting `rest` after its first `k` characters a match, with
the first part as the capture? -/
def validSplit (rest : List Char) (k : Nat) : Bool :=
  noLineFeed (rest.take k) && tailMatch (rest.drop k)

/-- The greedy capture: the longest valid split of `rest`. -/
def extractCapture (rest : List Char) : Option (List Char) :=
  match ((List.range (rest.length + 1)).filter (validSplit rest)).getLast? with
  | some k => some (rest.take k)
  | none => none

/-- `STATIC_INITIALIZER_REGEX` applied to a name: the extracted source
filename (capture group 1) when the name matches, `none` otherwise.
The optional leading underscore is tried first (greedy `_?`); the two
prefix alternatives are mutually exclusive. -/
def staticInitExtract (name : String) : Option String :=
  let cs := name.data
  let rest? :=
    match dropPre ('_' :: globalSubStem) cs with
    | some r => some r
    | none => dropPre globalSubStem cs
  match rest? with
  | some rest => (extractCapture rest).map fun l => String.mk l
  | none => none

/-- State of `FunctionMatcher::build_static_init_map`'s scan: the
filename → name map under construction and the permanent blocklist. -/
structure SIState where
  map : List (String × String)
  block : List String

/-- Remove all entries with the given key (`HashMap::remove`; keys are
unique in the reachable states, so filtering is the same removal). -/
def removeKey (m : List (String × String)) (k : String) : List (String × String) :=
  m.filter fun p => p.1 != k

/-- One step of `build_static_init_map` (src/matcher.rs lines 43–57):
skip non-matching names and blocklisted filenames; insert a first
occurrence; on a second occurrence remove the entry and blocklist the
filename. -/
def buildStaticInitStep (st : SIState) (name : String) : SIState :=
  match staticInitExtract name with
  | none => st
  | some extracted_filename =>
    if st.block.contains extracted_filename then st
    else
      match alistGet st.map extracted_filename with
      | some _ =>
        { map := removeKey st.map extracted_filename,
          block := extracted_filename :: st.block }
      | none => { st with map := (extracted_filename, name) :: st.map }

/-- `FunctionMatcher::build_static_init_map` (src/matcher.rs lines
39–60) over the program's function names in iteration order. -/
def build_static_init_map (names : List String) : List (String × String) :=
  (names.foldl buildStaticInitStep ⟨[], []⟩).map

/-- `FunctionMatcher::match_name` (src/matcher.rs lines 26–37):
a direct key of the secondary's functions, else the static-initializer
fallback through the precomputed map. -/
def match_name (program : Program) (static_init_map : List (String × String))
    (name : String) : Option Function :=
  match alistGet program.functions name with
  | some func2 => some func2
  | none =>
    match staticInitExtract name with
    | some extracted_filename =>
      match alistGet static_init_map extracted_filename with
      | some name2 => alistGet program.functions name2
      | none => none
    | none => none

/-! ## Orchestrator (src/compare.rs lines 121–156) -/

/-- A recorded change (src/compare.rs `FunctionChange`): the two
collected instruction vectors, the primary symbol name and the two
addresses. -/
structure FunctionChange where
  instructions1 : List Instruction
  instructions2 : List Instruction
  name : String
  address1 : Nat
  address2 : Nat
  deriving DecidableEq

/-- Stable insertion for the sort by primary address
(`changes.sort_by(|a, b| a.address1.cmp(&b.address1))`). -/
def insertByAddress (c : FunctionChange) : List FunctionChange → List FunctionChange
  | [] => [c]
  | d :: rest =>
    if c.address1 ≤ d.address1 then c :: d :: rest else d :: insertByAddress c rest

/-- Stable sort of the change list by primary address ascending. -/
def sortByAddress : List FunctionChange → List FunctionChange
  | [] => []
  | c :: rest => insertByAddress c (sortByAddress rest)

/-- The match-and-compare loop of `compare_programs`.  The matcher's
`next_match` iterator is not present in src; modelled from the spec:
it iterates the primary's functions in order and pairs each with
`match_name` on the secondary Program (`Unmatched` when there is no
pair).  On `Differs` the primary symbol name is looked up with
`unwrap` (panic when absent). -/
def comparePairs (decode : DecodeFn) (program1 program2 : Program)
    (static_init_map : List (String × String)) :
    List (String × Function) → PanicOr (List FunctionChange)
  | [] => PanicOr.ok []
  | (name, func1) :: rest =>
    match match_name program2 static_init_map name with
    | some func2 =>
      match compare_functions decode program1 program2 func1 func2 with
      | PanicOr.panic => PanicOr.panic
      | PanicOr.ok CompareResult.Same =>
        comparePairs decode program1 program2 static_init_map rest
      | PanicOr.ok (CompareResult.Differs instrs1 instrs2) =>
        match alistGet program1.symbol_map func1.address with
        | none => PanicOr.panic
        | some nm =>
          match comparePairs decode program1 program2 static_init_map rest with
          | PanicOr.panic => PanicOr.panic
          | PanicOr.ok changes =>
            PanicOr.ok (⟨instrs1, instrs2, nm, func1.address, func2.address⟩ :: changes)
    | none => comparePairs decode program1 program2 static_init_map rest

/-- `compare_programs` (src/compare.rs lines 121–156): assert the
pointer sizes match, build the matcher from the secondary Program,
compare every matched pair, and sort the change list by primary
address. -/
def compare_programs (decode : DecodeFn) (program1 program2 : Program) :
    PanicOr (List FunctionChange) :=
  if program1.pointer_size == program2.pointer_size then
    match comparePairs decode program1 program2
        (build_static_init_map (program2.functions.map Prod.fst))
        program1.functions with
    | PanicOr.ok changes => PanicOr.ok (sortByAddress changes)
    | PanicOr.panic => PanicOr.panic
  else
    PanicOr.panic

/-- Sanity checks of the pattern model: a plain match, a match with an
optional leading underscore and dots in the filename, and a
non-matching mangled name. -/
theorem staticInitExtract_samples :
    staticInitExtract "_GLOBAL__sub_I_foo.stdout.rel_tf_osx_builder.A.ii"
        = some "foo"
    ∧ staticInitExtract "__GLOBAL__sub_I_a.b.stdout.rel_tf_osx_builder.x.y.ii"
        = some "a.b"
    ∧ staticInitExtract "_Z3fooi" = none := by
  decide

/-! ## EH-frame parser (src/eh_frame.rs)

The byte source (`Read + Seek` over a `Cursor`) is modelled as a byte
list with a position.  Reads that hit the end of the stream are the
`UnexpectedEof` I/O error; `std::io::Read::read_exact` consumes the
remaining bytes before failing, so a failed exact read leaves the
position at the end of the data. -/

/-- A seekable little-endian byte stream. -/
structure ByteStream where
  data : List Nat
  pos : Nat
  deriving DecidableEq

/-- `read_u8`. -/
def readU8 (s : ByteStream) : Option (Nat × ByteStream) :=
  match s.data[s.pos]? with
  | some b => some (b, { s with pos := s.pos + 1 })
  | none => none

/-- Read `n` bytes exactly (`read_exact` and the fixed-width
`byteorder` reads). -/
def readBytes (s : ByteStream) (n : Nat) : Option (List Nat × ByteStream) :=
  if s.pos + n ≤ s.data.length then
    some ((s.data.drop s.pos).take n, { s with pos := s.pos + n })
  else
    none

/-- `read_u32::<LittleEndian>`. -/
def readU32le (s : ByteStream) : Option (Nat × ByteStream) :=
  match readBytes s 4 with
  | some ([b0, b1, b2, b3], s') =>
    some (b0 + 256 * b1 + 65536 * b2 + 16777216 * b3, s')
  | _ => none

/-- `read_i32::<LittleEndian>`: the `u32` reinterpreted as a signed
two's-complement value. -/
def readI32le (s : ByteStream) : Option (Int × ByteStream) :=
  match readU32le s with
  | some (u, s') =>
    some (if u < 2147483648 then Int.ofNat u else Int.ofNat u - 4294967296, s')
  | none => none

/-- Unsigned LEB128 decoding (model of the external `leb128` crate's
reader): value and number of bytes consumed, `none` at end of stream
mid-value.  Signed decoding consumes the same bytes, which is all the
repository observes of the two ignored alignment-factor reads. -/
def lebConsume : List Nat → Option (Nat × Nat)
  | [] => none
  | b :: rest =>
    if b < 128 then some (b, 1)
    else
      match lebConsume rest with
      | some (v, n) => some (b % 128 + 128 * v, n + 1)
      | none => none

/-- Advance a stream over one LEB128 value whose result (and error) the
code discards (`let _ = leb128::read::...(data);`): on end of stream
the reader has consumed everything. -/
def lebSkip (s : ByteStream) : ByteStream :=
  match lebConsume (s.data.drop s.pos) with
  | some (_, n) => { s with pos := s.pos + n }
  | none => { s with pos := s.data.length }

/-- `EhPointerFormat` (src/eh_frame.rs lines 16–35). -/
inductive EhPointerFormat where
  | DW_EH_PE_absptr
  | DW_EH_PE_uleb128
  | DW_EH_PE_udata2
  | DW_EH_PE_udata4
  | DW_EH_PE_udata8
  | DW_EH_PE_sleb128
  | DW_EH_PE_sdata2
  | DW_EH_PE_sdata4
  | DW_EH_PE_sdata8
  deriving DecidableEq

/-- `EhPointerFormat::try_from` (`num_enum::TryFromPrimitive`). -/
def ehPointerFormatTryFrom (n : Nat) : Option EhPointerFormat :=
  if n = 0 then some .DW_EH_PE_absptr
  else if n = 1 then some .DW_EH_PE_uleb128
  else if n = 2 then some .DW_EH_PE_udata2
  else if n = 3 then some .DW_EH_PE_udata4
  else if n = 4 then some .DW_EH_PE_udata8
  else if n = 9 then some .DW_EH_PE_sleb128
  else if n = 10 then some .DW_EH_PE_sdata2
  else if n = 11 then some .DW_EH_PE_sdata4
  else if n = 12 then some .DW_EH_PE_sdata8
  else none

/-- `EhPointerApplication` (src/eh_frame.rs lines 40–51). -/
inductive EhPointerApplication where
  | DW_EH_PE_pcrel
  | DW_EH_PE_textrel
  | DW_EH_PE_datarel
  | DW_EH_PE_funcrel
  | DW_EH_PE_aligned
  deriving DecidableEq

/-- `EhPointerApplication::try_from`. -/
def ehPointerApplicationTryFrom (n : Nat) : Option EhPointerApplication :=
  if n = 16 then some .DW_EH_PE_pcrel
  else if n = 32 then some .DW_EH_PE_textrel
  else if n = 48 then some .DW_EH_PE_datarel
  else if n = 64 then some .DW_EH_PE_funcrel
  else if n = 80 then some .DW_EH_PE_aligned
  else none

/-- The typed error kinds of `EhFrameError` (src/eh_frame.rs lines
53–65). -/
inductive EhError where
  | io
  | leb
  | pointerFormatDecode (b : Nat)
  | pointerApplicationDecode (b : Nat)
  | invalidCie (offset : Nat)
  deriving DecidableEq

/-- Outcome of eh-frame parsing code: a value, a typed `EhFrameError`
returned with `?`, or a panic (`assert!`/`todo!`). -/
inductive EhResult (α : Type) where
  | ok (value : α)
  | err (e : EhError)
  | panic
  deriving DecidableEq

instance : Monad EhResult where
  pure := EhResult.ok
  bind := fun r f =>
    match r with
    | .ok a => f a
    | .err e => .err e
    | .panic => .panic

/-- Lift a read that fails with `UnexpectedEof` into the `Io` error
kind (the `?` operator with `From<io::Error>`). -/
def ioRead {α : Type} : Option α → EhResult α
  | some a => EhResult.ok a
  | none => EhResult.err EhError.io

/-- `2 ^ 64`. -/
def u64Mod : Nat := 18446744073709551616

/-- `u64::wrapping_add`. -/
def wrapAdd (a b : Nat) : Nat := (a + b) % u64Mod

/-- `i32 as u64`: sign extension reinterpreted as an unsigned 64-bit
value. -/
def i32AsU64 (v : Int) : Nat := (v % (18446744073709551616 : Int)).toNat

/-- `read_encoded_no_application` (src/eh_frame.rs lines 108–122):
`absptr` with 4-byte pointers reads a `u32`; `sdata4` reads an `i32`
and reinterprets it `as u64`; every other format (and `absptr` with a
different pointer size) hits `todo!`. -/
def read_encoded_no_application (data : ByteStream) (format : EhPointerFormat)
    (pointer_size : Nat) : EhResult (Nat × ByteStream) :=
  match format with
  | .DW_EH_PE_absptr =>
    match pointer_size with
    | 4 => ioRead (readU32le data)
    | _ => EhResult.panic
  | .DW_EH_PE_sdata4 =>
    match readI32le data with
    | some (v, s') => EhResult.ok (i32AsU64 v, s')
    | none => EhResult.err EhError.io
  | _ => EhResult.panic

/-- `read_encoded` (src/eh_frame.rs lines 124–142): record the stream
position, read the raw value, then apply `pcrel` as
`base_address.wrapping_add(pcrel_offs).wrapping_add(unapplied_value)`;
every other application hits `todo!`. -/
def read_encoded (data : ByteStream) (format : EhPointerFormat)
    (application : EhPointerApplication) (pointer_size : Nat)
    (base_address : Nat) : EhResult (Nat × ByteStream) := do
  let pcrel_offs := data.pos
  let (unapplied_value, s') ← read_encoded_no_application data format pointer_size
  match application with
  | .DW_EH_PE_pcrel =>
    EhResult.ok (wrapAdd (wrapAdd base_address pcrel_offs) unapplied_value, s')
  | _ => EhResult.panic

/-- Read the NUL-terminated augmentation string: characters before the
first zero byte and the count of bytes consumed including the zero. -/
def takeUntilZero : List Nat → Option (List Nat × Nat)
  | [] => none
  | b :: rest =>
    if b == 0 then some ([], 1)
    else
      match takeUntilZero rest with
      | some (cs, n) => some (b :: cs, n + 1)
      | none => none

/-- Substring test (`str::contains` with a literal). -/
def containsSeq (hay needle : List Char) : Bool :=
  listIsPre needle hay ||
    match hay with
    | [] => false
    | _ :: t => containsSeq t needle

/-- `Cie` (src/eh_frame.rs lines 92–95). -/
structure Cie where
  fde_pointer_format : Option EhPointerFormat
  fde_pointer_application : Option EhPointerApplication
  deriving DecidableEq

/-- The augmentation-string interpretation loop of `Cie::parse`
(src/eh_frame.rs lines 228–298) over the augmentation-data cursor:
`z` is a no-op, `e` asserts the next character is `h` (panic
otherwise), `L` consumes one byte, `P` consumes an encoding byte and a
personality pointer whose value and read errors are discarded (a
`todo!` inside the discarded read still panics; after a discarded
failed read the cursor is at the end of its data), `R` consumes one
byte whose nibbles are decoded into the CIE's pointer format and
application, and any other character hits `todo!`. -/
def augApply (pointer_size : Nat) :
    List Char → ByteStream → Option EhPointerFormat → Option EhPointerApplication →
    EhResult (Option EhPointerFormat × Option EhPointerApplication)
  | [], _, fmt, app => EhResult.ok (fmt, app)
  | c :: rest, cursor, fmt, app =>
    if c == 'z' then augApply pointer_size rest cursor fmt app
    else if c == 'e' then
      match rest with
      | 'h' :: rest' => augApply pointer_size rest' cursor fmt app
      | _ => EhResult.panic
    else if c == 'L' then
      match readU8 cursor with
      | some (_, cursor') => augApply pointer_size rest cursor' fmt app
      | none => EhResult.err EhError.io
    else if c == 'P' then
      match readU8 cursor with
      | none => EhResult.err EhError.io
      | some (b, cursor') =>
        match ehPointerFormatTryFrom (Nat.land b 15) with
        | none => EhResult.err (EhError.pointerFormatDecode (Nat.land b 15))
        | some pointer_format =>
          match read_encoded_no_application cursor' pointer_format pointer_size with
          | .panic => EhResult.panic
          | .ok (_, cursor'') => augApply pointer_size rest cursor'' fmt app
          | .err _ =>
            augApply pointer_size rest
              { cursor' with pos := cursor'.data.length } fmt app
    else if c == 'R' then
      match readU8 cursor with
      | none => EhResult.err EhError.io
      | some (b, cursor') =>
        match ehPointerFormatTryFrom (Nat.land b 15) with
        | none => EhResult.err (EhError.pointerFormatDecode (Nat.land b 15))
        | some f =>
          match ehPointerApplicationTryFrom (Nat.land b 240) with
          | none => EhResult.err (EhError.pointerApplicationDecode (Nat.land b 240))
          | some a => augApply pointer_size rest cursor' (some f) (some a)
    else
      EhResult.panic

/-- The remainder of `Cie::parse` after the version assertion
(src/eh_frame.rs lines 154–304): the NUL-terminated augmentation
string; the pointer-sized "eh" datum when the string contains `"eh"`
(`todo!` for pointer sizes other than 4); two LEB128 alignment factors
whose values and errors are discarded; the return-address-register
byte, whose LEB-continuation bit is asserted clear (panic otherwise);
the `z`-gated augmentation-data length and bytes; and the
augmentation-string interpretation over that data. -/
def Cie.parseAfterVersion (s1 : ByteStream) (pointer_size : Nat) :
    EhResult (Cie × ByteStream) := do
  let (augBytes, n) ← ioRead (takeUntilZero (s1.data.drop s1.pos))
  let augmentation_string : List Char := augBytes.map Char.ofNat
  let s2 : ByteStream := { s1 with pos := s1.pos + n }
  let s3 ←
    if containsSeq augmentation_string ['e', 'h'] then
      match pointer_size with
      | 4 =>
        match readU32le s2 with
        | some (_, s') => EhResult.ok s'
        | none => EhResult.err EhError.io
      | _ => EhResult.panic
    else
      EhResult.ok s2
  let s4 := lebSkip s3
  let s5 := lebSkip s4
  let (return_address_register, s6) ← ioRead (readU8 s5)
  if Nat.land return_address_register 128 == 0 then do
    let (augmentation_data_length, s7) ←
      if augmentation_string.contains 'z' then
        match lebConsume (s6.data.drop s6.pos) with
        | some (v, n') =>
          EhResult.ok (some v, { s6 with pos := s6.pos + n' })
        | none => EhResult.err EhError.leb
      else
        EhResult.ok ((none : Option Nat), s6)
    let (augmentation_data, s8) ←
      match augmentation_data_length with
      | some l =>
        match readBytes s7 l with
        | some (bytes, s') => EhResult.ok (some bytes, s')
        | none => EhResult.err EhError.io
      | none => EhResult.ok ((none : Option (List Nat)), s7)
    match augmentation_data with
    | some bytes => do
      let (fmt, app) ← augApply pointer_size augmentation_string
        ⟨bytes, 0⟩ none none
      EhResult.ok (⟨fmt, app⟩, s8)
    | none => EhResult.ok (⟨none, none⟩, s8)
  else
    EhResult.panic

/-- `Cie::parse` (src/eh_frame.rs lines 144–305): read the version
byte (`?`, so end of stream is the `Io` error) and check it with
`assert_eq!(version, 1, ...)` — a panic, not a typed error, when it
differs from 1; then parse the rest of the CIE. -/
def Cie.parse (data : ByteStream) (pointer_size : Nat) :
    EhResult (Cie × ByteStream) :=
  match readU8 data with
  | none => EhResult.err EhError.io
  | some (version, s1) =>
    if version == 1 then Cie.parseAfterVersion s1 pointer_size
    else EhResult.panic

/-- Sanity check: a well-formed `zR`-augmented CIE (version 1,
augmentation `"zR"`, alignment factors, return-address register 8,
one augmentation byte `0x1B` = `sdata4 | pcrel`) parses to the
expected pointer format and application, consuming all nine bytes. -/
theorem cieParse_sample :
    Cie.parse ⟨[1, 122, 82, 0, 1, 124, 8, 1, 27], 0⟩ 4
      = EhResult.ok (⟨some .DW_EH_PE_sdata4, some .DW_EH_PE_pcrel⟩,
          ⟨[1, 122, 82, 0, 1, 124, 8, 1, 27], 9⟩) := by
  decide

/-! ## Program loader (src/program.rs) -/

/-- A loaded object section as seen through the external object-file
parser: load address, size, and uncompressed data when readable
(`uncompressed_data()` is fallible). -/
structure ObjectSection where
  address : Nat
  size : Nat
  data : Option (List Nat)
  deriving DecidableEq

/-- `Program::get_data_at_address` (src/program.rs lines 32–54):
scan the sections in order, skipping any with `address() > address`
or `address() + size() <= address`; at the first remaining section,
return `None` if its data cannot be read, otherwise slice
`size` bytes starting at `address - section.address()` — a Rust slice
index that panics when it runs past the end of the section data. -/
def get_data_at_address : List ObjectSection → Nat → Nat → PanicOr (Option (List Nat))
  | [], _, _ => PanicOr.ok none
  | section_ :: rest, address, size =>
    if section_.address > address || section_.address + section_.size ≤ address then
      get_data_at_address rest address size
    else
      match section_.data with
      | some section_data =>
        let relative_address := address - section_.address
        if relative_address + size ≤ section_data.length then
          PanicOr.ok (some ((section_data.drop relative_address).take size))
        else
          PanicOr.panic
      | none => PanicOr.ok none

/-- Does the section contain the address, testing only the start
address: `address() ≤ address < address() + size()`? -/
def sectionContains (address : Nat) (section_ : ObjectSection) : Bool :=
  decide (section_.address ≤ address) && decide (address < section_.address + section_.size)

/-! ## Helper lemmas -/

@[simp] theorem EhResult.ok_bind {α β : Type} (a : α) (f : α → EhResult β) :
    (EhResult.ok a >>= f) = f a := rfl

/-- The scan of `get_data_at_address` is the `find?` of the first
section containing the start address, followed by the data read and
the possibly-out-of-bounds slice. -/
theorem get_data_at_address_eq_find (sections : List ObjectSection)
    (address size : Nat) :
    get_data_at_address sections address size =
      match sections.find? (sectionContains address) with
      | none => PanicOr.ok none
      | some sec =>
        match sec.data with
        | none => PanicOr.ok none
        | some d =>
          if address - sec.address + size ≤ d.length then
            PanicOr.ok (some ((d.drop (address - sec.address)).take size))
          else
            PanicOr.panic := by
  induction sections with
  | nil => rfl
  | cons sec rest ih =>
    by_cases h : sectionContains address sec = true
    · have hskip : ¬(sec.address > address ∨ sec.address + sec.size ≤ address) := by
        simp only [sectionContains, Bool.and_eq_true, decide_eq_true_eq] at h
        omega
      rw [List.find?_cons_of_pos _ h]
      simp only [get_data_at_address]
      rw [if_neg (by simpa using hskip)]
      cases sec.data <;> rfl
    · have hskip : sec.address > address ∨ sec.address + sec.size ≤ address := by
        simp only [sectionContains, Bool.and_eq_true, decide_eq_true_eq] at h
        omega
      rw [List.find?_cons_of_neg _ h]
      simp only [get_data_at_address]
      rw [if_pos (by simpa using hskip)]
      exact ih

/-! ## Claims about the program loader and the eh-frame parser -/

/-- C10: `get_data_at_address` selects the first section whose start
address is at most the requested address and whose end is greater than
it, testing containment of the start address only; with section data
as long as the section, the result is a panic (an out-of-bounds slice)
exactly when `address + size` runs past that section's end; `None`
arises only without a containing section or when the containing
section's data cannot be read. -/
theorem c10_get_data_at_address :
    (∀ (sections : List ObjectSection) (address size : Nat),
      get_data_at_address sections address size =
        match sections.find? (sectionContains address) with
        | none => PanicOr.ok none
        | some sec =>
          match sec.data with
          | none => PanicOr.ok none
          | some d =>
            if address - sec.address + size ≤ d.length then
              PanicOr.ok (some ((d.drop (address - sec.address)).take size))
            else
              PanicOr.panic)
  ∧ (∀ (sections : List ObjectSection) (address size : Nat)
       (sec : ObjectSection) (d : List Nat),
      sections.find? (sectionContains address) = some sec →
      sec.data = some d → d.length = sec.size →
      (get_data_at_address sections address size = PanicOr.panic ↔
        sec.address + sec.size < address + size)) := by
  refine ⟨get_data_at_address_eq_find, ?_⟩
  intro sections address size sec d hfind hdata hlen
  have hcontains : sectionContains address sec = true := List.find?_some hfind
  simp only [sectionContains, Bool.and_eq_true, decide_eq_true_eq] at hcontains
  rw [get_data_at_address_eq_find, hfind]
  simp only [hdata]
  by_cases hle : address - sec.address + size ≤ d.length
  · rw [if_pos hle]
    constructor
    · intro hcontra; exact absurd hcontra (by simp)
    · intro hlt; omega
  · rw [if_neg hle]
    constructor
    · intro _; omega
    · intro _; rfl

/-- Witness for C10 at a concrete section list: reading 4 bytes at
address 102 from a section covering `[100, 104)` is the out-of-bounds
panic. -/
theorem c10_witness :
    get_data_at_address [⟨100, 4, some [7, 8, 9, 10]⟩] 102 4 = PanicOr.panic ↔
      100 + 4 < 102 + 4 :=
  c10_get_data_at_address.2 [⟨100, 4, some [7, 8, 9, 10]⟩] 102 4
    ⟨100, 4, some [7, 8, 9, 10]⟩ [7, 8, 9, 10] (by decide) rfl rfl

/-- C7: with the `pcrel` application, the decoded FDE pointer is the
raw value plus the section base address plus the stream offset at
which the raw value was read, wrapping on `u64`; for `sdata4` the raw
value is the sign-extended `i32` reinterpreted as `u64`. -/
theorem c7_read_encoded_pcrel :
    (∀ (data : ByteStream) (format : EhPointerFormat)
       (pointer_size base_address raw : Nat) (s' : ByteStream),
      read_encoded_no_application data format pointer_size = EhResult.ok (raw, s') →
      read_encoded data format EhPointerApplication.DW_EH_PE_pcrel pointer_size
          base_address
        = EhResult.ok ((base_address + data.pos + raw) % u64Mod, s'))
  ∧ (∀ (data : ByteStream) (pointer_size : Nat) (v : Int) (s' : ByteStream),
      readI32le data = some (v, s') →
      read_encoded_no_application data EhPointerFormat.DW_EH_PE_sdata4 pointer_size
        = EhResult.ok (i32AsU64 v, s')) := by
  constructor
  · intro data format pointer_size base_address raw s' h
    unfold read_encoded
    rw [h, EhResult.ok_bind]
    show EhResult.ok (wrapAdd (wrapAdd base_address data.pos) raw, s')
      = EhResult.ok ((base_address + data.pos + raw) % u64Mod, s')
    have : wrapAdd (wrapAdd base_address data.pos) raw
        = (base_address + data.pos + raw) % u64Mod := by
      unfold wrapAdd u64Mod
      omega
    rw [this]
  · intro data pointer_size v s' h
    unfold read_encoded_no_application
    rw [h]

/-- Witness for C7 at a concrete stream: the four bytes at offset 2
decode (`sdata4`) to `-4`, and the `pcrel` result is
`(1000 + 2 + (2^64 - 4)) mod 2^64 = 998`. -/
theorem c7_witness :
    read_encoded ⟨[0, 0, 252, 255, 255, 255], 2⟩ EhPointerFormat.DW_EH_PE_sdata4
        EhPointerApplication.DW_EH_PE_pcrel 4 1000
      = EhResult.ok ((1000 + 2 + i32AsU64 (-4)) % u64Mod,
          ⟨[0, 0, 252, 255, 255, 255], 6⟩) :=
  c7_read_encoded_pcrel.1 ⟨[0, 0, 252, 255, 255, 255], 2⟩ _ 4 1000 _ _
    (c7_read_encoded_pcrel.2 ⟨[0, 0, 252, 255, 255, 255], 2⟩ 4 (-4)
      ⟨[0, 0, 252, 255, 255, 255], 6⟩ (by decide))

/-- C8 counterexample: a CIE whose version byte is 2 makes
`Cie::parse` panic (the `assert_eq!(version, 1, ...)`); no typed
`MalformedEhFrame`-style error is returned — indeed the error type has
no such kind. -/
theorem c8_counterexample :
    Cie.parse ⟨[2], 0⟩ 4 = EhResult.panic
      ∧ ∀ e : EhError, Cie.parse ⟨[2], 0⟩ 4 ≠ EhResult.err e := by
  refine ⟨by decide, ?_⟩
  intro e h
  rw [show Cie.parse ⟨[2], 0⟩ 4 = EhResult.panic from by decide] at h
  exact EhResult.noConfusion h

/-- C8 (amended): parsing a CIE whose version byte is not 1 panics via
the version assertion; it does not return a typed error and does not
succeed. -/
theorem c8_version_not_one_panics :
    ∀ (data : ByteStream) (pointer_size v : Nat) (s' : ByteStream),
      readU8 data = some (v, s') → v ≠ 1 →
      Cie.parse data pointer_size = EhResult.panic := by
  intro data pointer_size v s' h hv
  unfold Cie.parse
  rw [h]
  show (if (v == 1) = true then Cie.parseAfterVersion s' pointer_size
    else EhResult.panic) = EhResult.panic
  rw [if_neg (by simp [hv])]

/-- Witness for C8's amended theorem at the concrete one-byte stream
`[2]`. -/
theorem c8_witness :
    Cie.parse ⟨[2], 0⟩ 5 = EhResult.panic :=
  c8_version_not_one_panics ⟨[2], 0⟩ 5 2 ⟨[2], 1⟩ rfl (by decide)

/-! ## Claims about the instruction equivalence -/

/-- Two operands of the same shape: equal kind, equal register
identities (including those inside memory operands), but possibly
different immediate or displacement payloads. -/
def operandShapeEq : Operand → Operand → Bool
  | .register r, .register r' => r == r'
  | .nearBranch32 _, .nearBranch32 _ => true
  | .immediate8to32 _, .immediate8to32 _ => true
  | .immediate32 _, .immediate32 _ => true
  | .memory b i _, .memory b' i' _ => b == b' && i == i'
  | .otherOperand k, .otherOperand k' => k == k'
  | _, _ => false

/-- Replace an instruction's instruction-pointer value. -/
def withIp (a : Instruction) (v : Nat) : Instruction := { a with ip := v }

/-- C5 counterexample.  First conjunct: `mov eax, [ebx+d]` and
`mov eax, [ecx+d]` (same `Code` `Mov_r32_rm32`, operand 1 a memory
operand) differ in the base register inside the memory operand yet
compare equal — the equality never reads registers inside memory
operands.  Second conjunct: `mov eax, [ebx]` (bytes `8B 03`) and
`mov eax, ebx` (bytes `8B C3`) share the `Code` `Mov_r32_rm32` but
differ in the runtime kind of operand 1 (memory vs register), yet the
first compares equal to the second — runtime operand kinds are not
compared. -/
theorem c5_counterexample :
    (instructionWrapperEq
        ⟨2, .mov, [13, 10], [.register .eax, .memory .ebx .noneReg 0], 0⟩
        ⟨2, .mov, [13, 10], [.register .eax, .memory .ecx .noneReg 0], 0⟩ = true
      ∧ (Operand.memory .ebx .noneReg 0 : Operand) ≠ Operand.memory .ecx .noneReg 0)
  ∧ (instructionWrapperEq
        ⟨2, .mov, [13, 10], [.register .eax, .memory .ebx .noneReg 0], 0⟩
        ⟨2, .mov, [13, 10], [.register .eax, .register .ebx], 0⟩ = true
      ∧ opKindOf (Operand.memory .ebx .noneReg 0) ≠ opKindOf (Operand.register .ebx)) := by
  decide

/-- C5 (amended): instructions that differ only in immediate or
displacement payloads (same opcode, same operand shapes) compare
equal; instructions that differ in opcode compare unequal; and
instructions that differ in the register of an operand whose kind is
register compare unequal.  Registers inside memory operands and
runtime operand kinds beyond the opcode's operand-kind table are not
compared. -/
theorem c5_structural_equivalence :
    (∀ a b : Instruction, a.code = b.code → a.opCodeOpKinds = b.opCodeOpKinds →
      (∀ i, i < a.operands.length → operandShapeEq (a.opGet i) (b.opGet i) = true) →
      instructionWrapperEq a b = true)
  ∧ (∀ a b : Instruction, a.code ≠ b.code → instructionWrapperEq a b = false)
  ∧ (∀ (a b : Instruction) (i : Nat), i < a.operands.length →
      opKindOf (a.opGet i) = OpKindTag.register →
      opRegisterOf (a.opGet i) ≠ opRegisterOf (b.opGet i) →
      instructionWrapperEq a b = false) := by
  refine ⟨?_, ?_, ?_⟩
  · intro a b hcode hkinds hshape
    unfold instructionWrapperEq
    rw [if_pos (by simp [hcode, hkinds])]
    rw [List.all_eq_true]
    intro i hi
    rw [List.mem_range] at hi
    have hs := hshape i hi
    cases ha : a.opGet i <;> cases hb : b.opGet i <;>
      simp_all [operandShapeEq, opKindOf, opRegisterOf]
  · intro a b hcode
    unfold instructionWrapperEq
    rw [if_neg (by simp [hcode])]
  · intro a b i hi hkind hreg
    unfold instructionWrapperEq
    by_cases hcond : (a.code == b.code && a.opCodeOpKinds == b.opCodeOpKinds) = true
    · rw [if_pos hcond]
      apply List.all_eq_false.mpr
      refine ⟨i, List.mem_range.mpr hi, ?_⟩
      rw [if_pos (by simp [hkind])]
      simp [hreg]
    · rw [if_neg hcond]

/-- Witness for C5's amended theorem: `sub esp, 0x10` and
`sub esp, 0x20` (differing only in the 8-bit-sign-extended immediate)
compare equal; changing the opcode or the destination register breaks
equality. -/
theorem c5_witness :
    instructionWrapperEq
        ⟨1, .sub, [10, 11], [.register .esp, .immediate8to32 16], 0⟩
        ⟨1, .sub, [10, 11], [.register .esp, .immediate8to32 32], 0⟩ = true
      ∧ instructionWrapperEq
        ⟨1, .sub, [10, 11], [.register .esp, .immediate8to32 16], 0⟩
        ⟨7, .mov, [10, 11], [.register .esp, .immediate8to32 16], 0⟩ = false
      ∧ instructionWrapperEq
        ⟨1, .sub, [10, 11], [.register .esp, .immediate8to32 16], 0⟩
        ⟨1, .sub, [10, 11], [.register .ebp, .immediate8to32 16], 0⟩ = false :=
  ⟨c5_structural_equivalence.1 _ _ rfl rfl (by decide),
   c5_structural_equivalence.2.1 _ _ (by decide),
   c5_structural_equivalence.2.2 _ _ 0 (by decide) (by decide) (by decide)⟩

/-- C9: the structural instruction equality never reads the
instruction-pointer value — instructions agreeing on opcode, on the
operand-kind tuple, and on the register of every register-kind operand
compare equal whatever their `ip`s; replacing `ip`s on either side
changes neither the equality nor the whole stream comparison, so the
comparison of two decoded streams does not depend on the two load
addresses. -/
theorem c9_ip_independence :
    (∀ a b : Instruction, a.code = b.code → a.opCodeOpKinds = b.opCodeOpKinds →
      a.operands.map opKindOf = b.operands.map opKindOf →
      (∀ i, i < a.operands.length → opKindOf (a.opGet i) = OpKindTag.register →
        opRegisterOf (a.opGet i) = opRegisterOf (b.opGet i)) →
      instructionWrapperEq a b = true)
  ∧ (∀ (a b : Instruction) (v w : Nat),
      instructionWrapperEq (withIp a v) (withIp b w) = instructionWrapperEq a b)
  ∧ (∀ (I1 I2 : List Instruction) (f g : Nat → Nat),
      compareHasDifference (I1.map fun a => withIp a (f a.ip))
          (I2.map fun b => withIp b (g b.ip))
        = compareHasDifference I1 I2) := by
  refine ⟨?_, fun a b v w => rfl, ?_⟩
  · intro a b hcode hkinds hkmap hreg
    unfold instructionWrapperEq
    rw [if_pos (by simp [hcode, hkinds])]
    rw [List.all_eq_true]
    intro i hi
    rw [List.mem_range] at hi
    by_cases hk : opKindOf (a.opGet i) = OpKindTag.register
    · rw [if_pos (by simp [hk])]
      simp [hreg i hi hk]
    · rw [if_neg (by simp [hk])]
  · intro I1 I2 f g
    induction I1 generalizing I2 with
    | nil => cases I2 <;> rfl
    | cons x t1 ih =>
      cases I2 with
      | nil => rfl
      | cons y t2 =>
        show compareHasDifference (withIp x (f x.ip) :: t1.map fun a => withIp a (f a.ip))
            (withIp y (g y.ip) :: t2.map fun b => withIp b (g b.ip))
          = compareHasDifference (x :: t1) (y :: t2)
        rw [compareHasDifference, compareHasDifference]
        have h1 : instructionWrapperEq (withIp x (f x.ip)) (withIp y (g y.ip))
            = instructionWrapperEq x y := rfl
        have h2 : subEspProbe (withIp x (f x.ip)) (withIp y (g y.ip))
            = subEspProbe x y := rfl
        have h3 : get_stack_depth_from_instruction (withIp x (f x.ip))
            = get_stack_depth_from_instruction x := rfl
        have h4 : get_stack_depth_from_instruction (withIp y (g y.ip))
            = get_stack_depth_from_instruction y := rfl
        rw [h1, h2, h3, h4, ih]

/-- Witness for C9's first conjunct: two `sub esp, imm` instructions
at different instruction pointers compare equal. -/
theorem c9_witness :
    instructionWrapperEq
        ⟨1, .sub, [10, 11], [.register .esp, .immediate8to32 16], 4096⟩
        ⟨1, .sub, [10, 11], [.register .esp, .immediate8to32 16], 8192⟩ = true :=
  c9_ip_independence.1 _ _ rfl rfl rfl (by decide)

/-! ## Claims about the function comparator

Concrete decoders used below are fragments of the external x86
decoder's behaviour: each maps the listed byte sequences to the
instructions the x86 architecture defines for them (in 32-bit mode)
and is only ever applied to those byte sequences. -/

/-- The structural equality is reflexive. -/
theorem instructionWrapperEq_self (a : Instruction) :
    instructionWrapperEq a a = true := by
  unfold instructionWrapperEq
  rw [if_pos (by simp)]
  rw [List.all_eq_true]
  intro i _
  by_cases hk : (opKindOf (a.opGet i) == OpKindTag.register) = true
  · rw [if_pos hk]; simp
  · rw [if_neg hk]

/-- Scanning a stream against itself never records a difference: it
either finishes clean or panics in the stack-depth probe. -/
theorem compareHasDifference_self (I : List Instruction) :
    compareHasDifference I I = some false ∨ compareHasDifference I I = none := by
  induction I with
  | nil => exact Or.inl rfl
  | cons x t ih =>
    rw [compareHasDifference]
    rw [if_neg (by simp [instructionWrapperEq_self])]
    by_cases hp : subEspProbe x x = true
    · rw [if_pos hp]
      cases hd : get_stack_depth_from_instruction x
      · exact Or.inr (by simp [hd])
      · exact Or.inl (by simp [hd])
    · rw [if_neg hp]; exact ih

/-- `compare_functions` unfolded (the two `collect`ed vectors in the
`Differs` arm re-run the same pure decoding). -/
theorem compare_functions_eq (decode : DecodeFn) (program1 program2 : Program)
    (func1 func2 : Function) :
    compare_functions decode program1 program2 func1 func2 =
      match compareHasDifference (create_instruction_iter decode program1 func1)
          (create_instruction_iter decode program2 func2) with
      | some true => PanicOr.ok (CompareResult.Differs
          (create_instruction_iter decode program1 func1)
          (create_instruction_iter decode program2 func2))
      | some false => PanicOr.ok CompareResult.Same
      | none => PanicOr.panic := rfl

/-- When the two decoded streams coincide, the comparator returns
`Same` or panics. -/
theorem compare_functions_stream_self (decode : DecodeFn)
    (program1 program2 : Program) (func1 func2 : Function)
    (h : create_instruction_iter decode program1 func1
      = create_instruction_iter decode program2 func2) :
    compare_functions decode program1 program2 func1 func2
        = PanicOr.ok CompareResult.Same
      ∨ compare_functions decode program1 program2 func1 func2 = PanicOr.panic := by
  rw [compare_functions_eq, h]
  rcases compareHasDifference_self (create_instruction_iter decode program2 func2)
    with hs | hs
  · rw [hs]; exact Or.inl rfl
  · rw [hs]; exact Or.inr rfl

/-- Positions `0..k` of the two streams pair up, compare equal, and
none of them is a SUB-ESP probe pair. -/
def cleanUpTo (I1 I2 : List Instruction) (k : Nat) : Prop :=
  ∀ i, i < k → ∃ a b, I1[i]? = some a ∧ I2[i]? = some b ∧
    instructionWrapperEq a b = true ∧ subEspProbe a b = false

/-- At position `k` the zipped streams disagree: both defined and
structurally unequal, or exactly one of them exhausted. -/
def mismatchAt (I1 I2 : List Instruction) (k : Nat) : Prop :=
  (∃ a b, I1[k]? = some a ∧ I2[k]? = some b ∧ instructionWrapperEq a b = false)
  ∨ (I1[k]? = none ∧ I2[k]? ≠ none)
  ∨ (I1[k]? ≠ none ∧ I2[k]? = none)

/-- A clean prefix followed by a mismatch makes the scan record a
difference. -/
theorem compareHasDifference_of_mismatch (k : Nat) :
    ∀ I1 I2 : List Instruction, cleanUpTo I1 I2 k → mismatchAt I1 I2 k →
      compareHasDifference I1 I2 = some true := by
  induction k with
  | zero =>
    intro I1 I2 _ hmis
    cases I1 with
    | nil =>
      cases I2 with
      | nil => rcases hmis with ⟨a, b, ha, _⟩ | ⟨h1, h2⟩ | ⟨h1, h2⟩ <;> simp_all
      | cons y t2 => rfl
    | cons x t1 =>
      cases I2 with
      | nil => rfl
      | cons y t2 =>
        rcases hmis with ⟨a, b, ha, hb, hne⟩ | ⟨h1, _⟩ | ⟨_, h2⟩
        · rw [List.getElem?_cons_zero, Option.some_inj] at ha hb
          subst ha; subst hb
          rw [compareHasDifference, if_pos (by simp [hne])]
        · simp at h1
        · simp at h2
  | succ k ih =>
    intro I1 I2 hclean hmis
    obtain ⟨a, b, ha, hb, heq, hprobe⟩ := hclean 0 (Nat.succ_pos k)
    cases I1 with
    | nil => simp at ha
    | cons x t1 =>
      cases I2 with
      | nil => simp at hb
      | cons y t2 =>
        rw [List.getElem?_cons_zero, Option.some_inj] at ha hb
        subst ha; subst hb
        rw [compareHasDifference, if_neg (by simp [heq]), if_neg (by simp [hprobe])]
        apply ih t1 t2
        · intro i hi
          have h := hclean (i + 1) (by omega)
          simpa using h
        · rcases hmis with ⟨a', b', ha', hb', hne⟩ | ⟨h1, h2⟩ | ⟨h1, h2⟩
          · exact Or.inl ⟨a', b', by simpa using ha', by simpa using hb', hne⟩
          · exact Or.inr (Or.inl ⟨by simpa using h1, by simpa using h2⟩)
          · exact Or.inr (Or.inr ⟨by simpa using h1, by simpa using h2⟩)

/-- A clean prefix up to a structurally-equal SUB-ESP pair makes the
scan stop there, with the outcome decided by the two stack depths. -/
theorem compareHasDifference_probe (k : Nat) :
    ∀ (I1 I2 : List Instruction) (a b : Instruction),
      cleanUpTo I1 I2 k → I1[k]? = some a → I2[k]? = some b →
      instructionWrapperEq a b = true → subEspProbe a b = true →
      compareHasDifference I1 I2 =
        match get_stack_depth_from_instruction a,
            get_stack_depth_from_instruction b with
        | some d1, some d2 => some (d1 != d2)
        | _, _ => none := by
  induction k with
  | zero =>
    intro I1 I2 a b _ ha hb heq hprobe
    cases I1 with
    | nil => simp at ha
    | cons x t1 =>
      cases I2 with
      | nil => simp at hb
      | cons y t2 =>
        rw [List.getElem?_cons_zero, Option.some_inj] at ha hb
        subst ha; subst hb
        rw [compareHasDifference, if_neg (by simp [heq]), if_pos hprobe]
  | succ k ih =>
    intro I1 I2 a b hclean ha hb heq hprobe
    obtain ⟨x', y', hx, hy, heq0, hprobe0⟩ := hclean 0 (Nat.succ_pos k)
    cases I1 with
    | nil => simp at hx
    | cons x t1 =>
      cases I2 with
      | nil => simp at hy
      | cons y t2 =>
        rw [List.getElem?_cons_zero, Option.some_inj] at hx hy
        subst hx; subst hy
        rw [compareHasDifference, if_neg (by simp [heq0]), if_neg (by simp [hprobe0])]
        apply ih t1 t2 a b
        · intro i hi
          have h := hclean (i + 1) (by omega)
          simpa using h
        · simpa using ha
        · simpa using hb
        · exact heq
        · exact hprobe

/-- `sub esp, imm8` (bytes `83 EC xx`, `Code::Sub_rm32_imm8`, operand
1 of kind `Immediate8to32`). -/
def subEspImm8 (v : Int) (ip : Nat) : Instruction :=
  ⟨1, .sub, [10, 11], [.register .esp, .immediate8to32 v], ip⟩

/-- `sub esp, eax` (bytes `29 C4`, `Code::Sub_rm32_r32`, operand 1 a
register — an operand-1 kind the stack-depth probe does not handle). -/
def subEspEaxAt (ip : Nat) : Instruction :=
  ⟨3, .sub, [10, 12], [.register .esp, .register .eax], ip⟩

/-- `mov eax, [ebx+displ]` (`Code::Mov_r32_rm32` with a memory operand
— 3 bytes with an 8-bit displacement, 6 bytes with a 32-bit one). -/
def movEaxMemEbx (displ : Nat) (ip : Nat) : Instruction :=
  ⟨2, .mov, [13, 10], [.register .eax, .memory .ebx .noneReg displ], ip⟩

/-- `nop` (byte `90`). -/
def nopAt (ip : Nat) : Instruction := ⟨4, .nop, [], [], ip⟩

/-- `ret` (byte `C3`). -/
def retAt (ip : Nat) : Instruction := ⟨5, .ret, [], [], ip⟩

/-- Decoder fragment for C1's counterexample: `8B 43 01` is
`mov eax, [ebx+1]` (3 bytes), `8B 83 00 01 00 00` is
`mov eax, [ebx+0x100]` (6 bytes, same `Code`), `83 EC 08 90` is
`sub esp, 8; nop`, and `83 EC 08 C3` is `sub esp, 8; ret`. -/
def decodeMovAndSub : DecodeFn := fun _ content ip =>
  if content == [139, 67, 1] then [movEaxMemEbx 1 ip]
  else if content == [139, 131, 0, 1, 0, 0] then [movEaxMemEbx 256 ip]
  else if content == [131, 236, 8, 144] then [subEspImm8 8 ip, nopAt (ip + 3)]
  else if content == [131, 236, 8, 195] then [subEspImm8 8 ip, retAt (ip + 3)]
  else []

/-- Decoder fragment mapping `29 C4` to `sub esp, eax`. -/
def decodeSubEspEax : DecodeFn := fun _ content ip =>
  if content == [41, 196] then [subEspEaxAt ip] else []

/-- Decoder fragment mapping `83 EC 10` to `sub esp, 0x10` and
`83 EC 20` to `sub esp, 0x20`. -/
def decodeSubImm : DecodeFn := fun _ content ip =>
  if content == [131, 236, 16] then [subEspImm8 16 ip]
  else if content == [131, 236, 32] then [subEspImm8 32 ip]
  else []

/-- The decoder that finds no instruction (empty content). -/
def decodeEmpty : DecodeFn := fun _ _ _ => []

/-- C1 counterexample.  First half: two contents of different byte
lengths (3 vs 6) whose decoded streams are structurally equal — the
comparator returns `Same`; content byte lengths are never compared.
Second half: two streams that agree at position 0 — a SUB-ESP pair
with equal immediates — and differ structurally at position 1
(`nop` vs `ret`), yet the comparator returns `Same`: the scan breaks
at the first SUB-ESP pair, so a mismatch after it is not recorded. -/
theorem c1_counterexample :
    ((⟨4096, [139, 67, 1]⟩ : Function).content.length
        ≠ (⟨4096, [139, 131, 0, 1, 0, 0]⟩ : Function).content.length
      ∧ compare_functions decodeMovAndSub ⟨4, [], []⟩ ⟨4, [], []⟩
          ⟨4096, [139, 67, 1]⟩ ⟨4096, [139, 131, 0, 1, 0, 0]⟩
        = PanicOr.ok CompareResult.Same)
  ∧ ((create_instruction_iter decodeMovAndSub ⟨4, [], []⟩
        ⟨4096, [131, 236, 8, 144]⟩)[1]? = some (nopAt 4099)
      ∧ (create_instruction_iter decodeMovAndSub ⟨4, [], []⟩
          ⟨4096, [131, 236, 8, 195]⟩)[1]? = some (retAt 4099)
      ∧ instructionWrapperEq (nopAt 4099) (retAt 4099) = false
      ∧ compare_functions decodeMovAndSub ⟨4, [], []⟩ ⟨4, [], []⟩
          ⟨4096, [131, 236, 8, 144]⟩ ⟨4096, [131, 236, 8, 195]⟩
        = PanicOr.ok CompareResult.Same) := by
  decide

/-- C1 (amended): the comparator records a difference — and returns
`Differs` with the two collected streams — whenever the zipped decoded
streams mismatch (structural inequality, or one side exhausted) at a
position reached before any SUB-ESP probe pair.  Content byte lengths
are not compared, and mismatches strictly after the first SUB-ESP
probe pair are not detected. -/
theorem c1_mismatch_differs :
    ∀ (decode : DecodeFn) (program1 program2 : Program)
      (func1 func2 : Function) (k : Nat),
      cleanUpTo (create_instruction_iter decode program1 func1)
        (create_instruction_iter decode program2 func2) k →
      mismatchAt (create_instruction_iter decode program1 func1)
        (create_instruction_iter decode program2 func2) k →
      compare_functions decode program1 program2 func1 func2
        = PanicOr.ok (CompareResult.Differs
            (create_instruction_iter decode program1 func1)
            (create_instruction_iter decode program2 func2)) := by
  intro decode program1 program2 func1 func2 k hclean hmis
  rw [compare_functions_eq,
    compareHasDifference_of_mismatch k _ _ hclean hmis]

/-- Witness for C1's amended theorem: `sub esp, 0x10` against an empty
function is a length mismatch at position 0 and yields `Differs`. -/
theorem c1_witness :
    compare_functions decodeSubImm ⟨4, [], []⟩ ⟨4, [], []⟩
        ⟨4096, [131, 236, 16]⟩ ⟨8192, []⟩
      = PanicOr.ok (CompareResult.Differs [subEspImm8 16 4096] []) :=
  c1_mismatch_differs decodeSubImm ⟨4, [], []⟩ ⟨4, [], []⟩
    ⟨4096, [131, 236, 16]⟩ ⟨8192, []⟩ 0
    (fun i hi => absurd hi (Nat.not_lt_zero i))
    (Or.inr (Or.inr ⟨by decide, by decide⟩))

/-- C2 counterexample: the two functions have identical content
(bytes `29 C4`, i.e. `sub esp, eax`), yet the comparator panics in
the stack-depth probe instead of returning `Same`; and with a decoder
returning no instructions for the same pair the comparator returns
`Same` — the outcome depends on the decoder, so the decoder is
invoked (there is no byte-equality short-circuit). -/
theorem c2_counterexample :
    (⟨4096, [41, 196]⟩ : Function).content = (⟨8192, [41, 196]⟩ : Function).content
    ∧ compare_functions decodeSubEspEax ⟨4, [], []⟩ ⟨4, [], []⟩
        ⟨4096, [41, 196]⟩ ⟨4096, [41, 196]⟩ = PanicOr.panic
    ∧ compare_functions decodeEmpty ⟨4, [], []⟩ ⟨4, [], []⟩
        ⟨4096, [41, 196]⟩ ⟨4096, [41, 196]⟩ = PanicOr.ok CompareResult.Same := by
  decide

/-- C2 (amended): for a matched pair decoded to identical streams
(in particular: identical content, equal addresses and pointer sizes),
the comparator — after invoking the decoder — returns `Same`, unless
the stack-depth probe meets an unsupported operand-1 kind, in which
case it panics. -/
theorem c2_identical_content :
    ∀ (decode : DecodeFn) (program1 program2 : Program)
      (func1 func2 : Function),
      func1.content = func2.content → func1.address = func2.address →
      program1.pointer_size = program2.pointer_size →
      compare_functions decode program1 program2 func1 func2
          = PanicOr.ok CompareResult.Same
        ∨ compare_functions decode program1 program2 func1 func2
          = PanicOr.panic := by
  intro decode program1 program2 func1 func2 hc ha hp
  apply compare_functions_stream_self
  unfold create_instruction_iter
  rw [hc, ha, hp]

/-- Witness for C2's amended theorem at a concrete pair with identical
content. -/
theorem c2_witness :
    compare_functions decodeEmpty ⟨4, [], []⟩ ⟨4, [], []⟩
        ⟨4096, [41, 196]⟩ ⟨4096, [41, 196]⟩ = PanicOr.ok CompareResult.Same
      ∨ compare_functions decodeEmpty ⟨4, [], []⟩ ⟨4, [], []⟩
        ⟨4096, [41, 196]⟩ ⟨4096, [41, 196]⟩ = PanicOr.panic :=
  c2_identical_content decodeEmpty ⟨4, [], []⟩ ⟨4, [], []⟩
    ⟨4096, [41, 196]⟩ ⟨4096, [41, 196]⟩ rfl rfl rfl

/-- C3: when the zipped decoded streams are structurally equal up to
and including the first SUB-with-ESP-destination pair, then (i) if
both instructions of that pair carry an 8-bit-sign-extended or 32-bit
immediate and the immediates differ, the comparator returns `Differs`;
(ii) any other operand-1 kind on either side there is the
unsupported-input outcome (the probe's `todo!` panic); and (iii) the
probe halts at that pair — the scan's verdict equals the verdict on
the streams truncated just after it. -/
theorem c3_stack_depth_probe :
    ∀ (decode : DecodeFn) (program1 program2 : Program)
      (func1 func2 : Function) (k : Nat) (a b : Instruction),
      cleanUpTo (create_instruction_iter decode program1 func1)
        (create_instruction_iter decode program2 func2) k →
      (create_instruction_iter decode program1 func1)[k]? = some a →
      (create_instruction_iter decode program2 func2)[k]? = some b →
      instructionWrapperEq a b = true →
      subEspProbe a b = true →
      ((∀ d1 d2 : Int, get_stack_depth_from_instruction a = some d1 →
          get_stack_depth_from_instruction b = some d2 → d1 ≠ d2 →
          compare_functions decode program1 program2 func1 func2
            = PanicOr.ok (CompareResult.Differs
                (create_instruction_iter decode program1 func1)
                (create_instruction_iter decode program2 func2)))
        ∧ ((get_stack_depth_from_instruction a = none ∨
              get_stack_depth_from_instruction b = none) →
            compare_functions decode program1 program2 func1 func2
              = PanicOr.panic)
        ∧ compareHasDifference (create_instruction_iter decode program1 func1)
              (create_instruction_iter decode program2 func2)
            = compareHasDifference
                ((create_instruction_iter decode program1 func1).take (k + 1))
                ((create_instruction_iter decode program2 func2).take (k + 1))) := by
  intro decode program1 program2 func1 func2 k a b hclean ha hb heq hprobe
  have hmain := compareHasDifference_probe k _ _ a b hclean ha hb heq hprobe
  have htake := compareHasDifference_probe k
    ((create_instruction_iter decode program1 func1).take (k + 1))
    ((create_instruction_iter decode program2 func2).take (k + 1)) a b
    (fun i hi => by
      obtain ⟨x, y, hx, hy, h1, h2⟩ := hclean i hi
      exact ⟨x, y, by rw [List.getElem?_take_of_lt (by omega)]; exact hx,
        by rw [List.getElem?_take_of_lt (by omega)]; exact hy, h1, h2⟩)
    (by rw [List.getElem?_take_of_lt (Nat.lt_succ_self k)]; exact ha)
    (by rw [List.getElem?_take_of_lt (Nat.lt_succ_self k)]; exact hb)
    heq hprobe
  refine ⟨?_, ?_, ?_⟩
  · intro d1 d2 h1 h2 hne
    rw [compare_functions_eq, hmain, h1, h2]
    have hbne : (d1 != d2) = true := by simpa using hne
    simp [hbne]
  · intro hnone
    rw [compare_functions_eq, hmain]
    rcases hnone with h | h
    · rw [h]
    · rw [h]
      cases get_stack_depth_from_instruction a <;> rfl
  · rw [hmain, htake]

/-- A lookup in an association list with distinct keys finds the
member pair. -/
theorem alistGet_mem_nodup {α : Type} (l : List (String × α)) (k : String) (v : α)
    (hnd : (l.map Prod.fst).Nodup) (hmem : (k, v) ∈ l) : alistGet l k = some v := by
  induction l with
  | nil => simp at hmem
  | cons p rest ih =>
    obtain ⟨k', v'⟩ := p
    simp only [List.map_cons, List.nodup_cons] at hnd
    rcases List.mem_cons.mp hmem with h | h
    · obtain ⟨rfl, rfl⟩ := Prod.mk.injEq .. ▸ h
      rw [alistGet, if_pos (by simp)]
    · have hk : k' ≠ k := by
        intro hkk
        subst hkk
        exact hnd.1 (List.mem_map.mpr ⟨(k', v), h, rfl⟩)
      rw [alistGet, if_neg (by simp [hk])]
      exact ih hnd.2 h

/-- When the iterated pairs all look themselves up in the program,
comparing the program against itself yields no changes (or panics in
the stack-depth probe). -/
theorem comparePairs_self (decode : DecodeFn) (program : Program)
    (static_init_map : List (String × String)) :
    ∀ l : List (String × Function),
      (∀ p ∈ l, alistGet program.functions p.1 = some p.2) →
      comparePairs decode program program static_init_map l = PanicOr.ok []
        ∨ comparePairs decode program program static_init_map l = PanicOr.panic := by
  intro l
  induction l with
  | nil => exact fun _ => Or.inl rfl
  | cons p rest ih =>
    intro hl
    obtain ⟨name, func1⟩ := p
    have hget := hl (name, func1) (List.mem_cons_self _ _)
    have hmatch : match_name program static_init_map name = some func1 := by
      unfold match_name
      rw [hget]
    rcases compare_functions_stream_self decode program program func1 func1 rfl
      with hs | hs
    · rw [comparePairs]
      simp only [hmatch, hs]
      exact ih fun p hp => hl p (List.mem_cons_of_mem _ hp)
    · rw [comparePairs]
      simp only [hmatch, hs]
      exact Or.inr trivial

/-- C4 counterexample: a program whose single function is
`sub esp, eax` (bytes `29 C4`) makes `compare_programs(P, P)` panic in
the stack-depth probe (`todo!` on the register operand), rather than
return an empty change list. -/
theorem c4_counterexample :
    compare_programs decodeSubEspEax
        ⟨4, [("f", ⟨4096, [41, 196]⟩)], [(4096, "f")]⟩
        ⟨4, [("f", ⟨4096, [41, 196]⟩)], [(4096, "f")]⟩
      = PanicOr.panic := by
  decide

/-- C4 (amended): whenever `compare_programs(P, P)` returns at all
(the stack-depth probe hits no unsupported operand form), the returned
change list is empty; it never returns a non-empty list. -/
theorem c4_self_compare_empty :
    ∀ (decode : DecodeFn) (program : Program) (changes : List FunctionChange),
      (program.functions.map Prod.fst).Nodup →
      compare_programs decode program program = PanicOr.ok changes →
      changes = [] := by
  intro decode program changes hnd hok
  unfold compare_programs at hok
  rw [if_pos (by simp)] at hok
  rcases comparePairs_self decode program
      (build_static_init_map (program.functions.map Prod.fst))
      program.functions
      (fun p hp => alistGet_mem_nodup program.functions p.1 p.2 hnd hp)
    with h | h
  · rw [h] at hok
    exact (PanicOr.ok.injEq .. ▸ hok).symm
  · rw [h] at hok
    exact absurd hok (by simp)

/-- Witness for C4's amended theorem at a concrete one-function
program whose comparison returns. -/
theorem c4_witness :
    compare_programs decodeEmpty ⟨4, [("f", ⟨4096, []⟩)], [(4096, "f")]⟩
        ⟨4, [("f", ⟨4096, []⟩)], [(4096, "f")]⟩ = PanicOr.ok []
    ∧ ([] : List FunctionChange) = [] :=
  ⟨by decide,
   c4_self_compare_empty decodeEmpty ⟨4, [("f", ⟨4096, []⟩)], [(4096, "f")]⟩ []
     (by decide) (by decide)⟩

/-! ## Claim about the static-initializer matcher (C6) -/

/-- Removing a key makes its lookup fail. -/
theorem alistGet_removeKey_self (m : List (String × String)) (k : String) :
    alistGet (removeKey m k) k = none := by
  induction m with
  | nil => rfl
  | cons p rest ih =>
    obtain ⟨k', v'⟩ := p
    unfold removeKey at ih ⊢
    rw [List.filter_cons]
    by_cases h : k' = k
    · rw [if_neg (by simp [h])]
      exact ih
    · rw [if_pos (by simp [h])]
      rw [alistGet, if_neg (by simp [h])]
      exact ih

/-- Removing one key leaves lookups of other keys unchanged. -/
theorem alistGet_removeKey_ne (m : List (String × String)) (k k' : String)
    (h : k ≠ k') : alistGet (removeKey m k) k' = alistGet m k' := by
  induction m with
  | nil => rfl
  | cons p rest ih =>
    obtain ⟨k0, v0⟩ := p
    unfold removeKey at ih ⊢
    rw [List.filter_cons]
    by_cases h0 : k0 = k
    · subst h0
      rw [if_neg (by simp)]
      rw [ih, alistGet, if_neg (by simp [h])]
    · rw [if_pos (by simp [h0])]
      rw [alistGet, alistGet, ih]

/-- A scan step for a name extracting to a different filename (or to
none) changes neither the blocklist test nor the map lookup for the
filename under consideration. -/
theorem siStep_status_other (st : SIState) (fn name : String)
    (hne : staticInitExtract name ≠ some fn) :
    (buildStaticInitStep st name).block.contains fn = st.block.contains fn
    ∧ alistGet (buildStaticInitStep st name).map fn = alistGet st.map fn := by
  cases hx : staticInitExtract name with
  | none => simp [buildStaticInitStep, hx]
  | some fn' =>
    have hfn : fn' ≠ fn := fun h => hne (h ▸ hx)
    simp only [buildStaticInitStep, hx]
    by_cases hb : st.block.contains fn' = true
    · rw [if_pos hb]
      exact ⟨rfl, rfl⟩
    · rw [if_neg hb]
      cases hm : alistGet st.map fn' with
      | some v =>
        refine ⟨?_, ?_⟩
        · show (fn == fn' || st.block.contains fn) = st.block.contains fn
          simp [hfn.symm]
        · exact alistGet_removeKey_ne st.map fn' fn hfn
      | none =>
        refine ⟨rfl, ?_⟩
        show alistGet ((fn', name) :: st.map) fn = alistGet st.map fn
        rw [alistGet, if_neg (by simp [hfn])]

/-- A scan step for an unblocked filename already in the map removes
the entry and blocklists the filename. -/
theorem siStep_hit_mapped (st : SIState) (fn name : String)
    (heq : staticInitExtract name = some fn)
    (hnb : st.block.contains fn = false) (v : String)
    (hm : alistGet st.map fn = some v) :
    (buildStaticInitStep st name).block.contains fn = true
    ∧ alistGet (buildStaticInitStep st name).map fn = none := by
  have hstep : buildStaticInitStep st name
      = { map := removeKey st.map fn, block := fn :: st.block } := by
    simp only [buildStaticInitStep, heq, hnb, Bool.false_eq_true, if_false, hm]
  rw [hstep]
  refine ⟨?_, alistGet_removeKey_self st.map fn⟩
  show (fn == fn || st.block.contains fn) = true
  simp

/-- A scan step for an unblocked filename not yet in the map inserts
it. -/
theorem siStep_hit_free (st : SIState) (fn name : String)
    (heq : staticInitExtract name = some fn)
    (hnb : st.block.contains fn = false)
    (hm : alistGet st.map fn = none) :
    (buildStaticInitStep st name).block.contains fn = false
    ∧ alistGet (buildStaticInitStep st name).map fn = some name := by
  have hstep : buildStaticInitStep st name
      = { map := (fn, name) :: st.map, block := st.block } := by
    simp only [buildStaticInitStep, heq, hnb, Bool.false_eq_true, if_false, hm]
  rw [hstep]
  exact ⟨hnb, by rw [alistGet, if_pos (by simp)]⟩

/-- The number of names in the list extracting to the given
filename. -/
def siCount (fn : String) (names : List String) : Nat :=
  names.countP fun n => staticInitExtract n == some fn

/-- Once a filename is blocklisted (with no map entry), the rest of
the scan keeps it so. -/
theorem siFold_blocked (fn : String) (names : List String) :
    ∀ st : SIState, st.block.contains fn = true → alistGet st.map fn = none →
      ((names.foldl buildStaticInitStep st).block.contains fn = true
        ∧ alistGet (names.foldl buildStaticInitStep st).map fn = none) := by
  induction names with
  | nil => exact fun st h1 h2 => ⟨h1, h2⟩
  | cons n rest ih =>
    intro st h1 h2
    rw [List.foldl_cons]
    by_cases hx : staticInitExtract n = some fn
    · have hstep : buildStaticInitStep st n = st := by
        simp only [buildStaticInitStep, hx, h1, if_true]
      rw [hstep]
      exact ih st h1 h2
    · obtain ⟨he1, he2⟩ := siStep_status_other st fn n hx
      exact ih _ (by rw [he1]; exact h1) (by rw [he2]; exact h2)

/-- Once a filename is mapped, one further extraction of it during the
scan blocklists it for good. -/
theorem siFold_mapped (fn : String) (names : List String) :
    ∀ st : SIState, st.block.contains fn = false →
      (∃ v, alistGet st.map fn = some v) → 1 ≤ siCount fn names →
      ((names.foldl buildStaticInitStep st).block.contains fn = true
        ∧ alistGet (names.foldl buildStaticInitStep st).map fn = none) := by
  induction names with
  | nil => intro st _ _ hc; simp [siCount] at hc
  | cons n rest ih =>
    intro st h1 h2 hc
    rw [List.foldl_cons]
    by_cases hx : staticInitExtract n = some fn
    · obtain ⟨v, hv⟩ := h2
      obtain ⟨hb1, hb2⟩ := siStep_hit_mapped st fn n hx h1 v hv
      exact siFold_blocked fn rest _ hb1 hb2
    · have hc' : 1 ≤ siCount fn rest := by
        unfold siCount at hc ⊢
        rw [List.countP_cons, if_neg (by simp [hx])] at hc
        omega
      obtain ⟨he1, he2⟩ := siStep_status_other st fn n hx
      exact ih _ (by rw [he1]; exact h1)
        (h2.imp fun v hv => by rw [he2]; exact hv) hc'

/-- From a state where a filename is neither blocked nor mapped, two
extractions of it during the scan leave it blocklisted with no map
entry. -/
theorem siFold_free (fn : String) (names : List String) :
    ∀ st : SIState, st.block.contains fn = false →
      alistGet st.map fn = none → 2 ≤ siCount fn names →
      ((names.foldl buildStaticInitStep st).block.contains fn = true
        ∧ alistGet (names.foldl buildStaticInitStep st).map fn = none) := by
  induction names with
  | nil => intro st _ _ hc; simp [siCount] at hc
  | cons n rest ih =>
    intro st h1 h2 hc
    rw [List.foldl_cons]
    by_cases hx : staticInitExtract n = some fn
    · obtain ⟨hf1, hf2⟩ := siStep_hit_free st fn n hx h1 h2
      have hc' : 1 ≤ siCount fn rest := by
        unfold siCount at hc ⊢
        rw [List.countP_cons, if_pos (by simp [hx])] at hc
        omega
      exact siFold_mapped fn rest _ hf1 ⟨n, hf2⟩ hc'
    · have hc' : 2 ≤ siCount fn rest := by
        unfold siCount at hc ⊢
        rw [List.countP_cons, if_neg (by simp [hx])] at hc
        omega
      obtain ⟨he1, he2⟩ := siStep_status_other st fn n hx
      exact ih _ (by rw [he1]; exact h1) (by rw [he2]; exact h2) hc'

/-- Two distinct members satisfying a predicate make its count at
least two. -/
theorem two_le_countP {α : Type} (p : α → Bool) (l : List α) (a b : α)
    (ha : a ∈ l) (hb : b ∈ l) (hab : a ≠ b)
    (hpa : p a = true) (hpb : p b = true) : 2 ≤ l.countP p := by
  induction l with
  | nil => simp at ha
  | cons x rest ih =>
    rw [List.countP_cons]
    rcases List.mem_cons.mp ha with rfl | ha'
    · have hb' : b ∈ rest := by
        rcases List.mem_cons.mp hb with h | h
        · exact absurd h.symm hab
        · exact h
      have h1 : 0 < rest.countP p := List.countP_pos_iff.mpr ⟨b, hb', hpb⟩
      simp only [hpa, if_true]
      omega
    · rcases List.mem_cons.mp hb with rfl | hb'
      · have h1 : 0 < rest.countP p := List.countP_pos_iff.mpr ⟨a, ha', hpa⟩
        simp only [hpb, if_true]
        omega
      · have := ih ha' hb'
        omega

/-- C6: when two distinct function names of the secondary Program
extract the same static-initializer filename, the built static-init
map has no entry for that filename, and consequently no
static-initializer name (that is not itself a direct key) resolves to
any function through `match_name`'s fallback path. -/
theorem c6_static_init_unique :
    ∀ (program : Program) (fn n1 n2 : String),
      n1 ∈ program.functions.map Prod.fst →
      n2 ∈ program.functions.map Prod.fst →
      n1 ≠ n2 → staticInitExtract n1 = some fn → staticInitExtract n2 = some fn →
      alistGet (build_static_init_map (program.functions.map Prod.fst)) fn = none
      ∧ ∀ name : String, staticInitExtract name = some fn →
          alistGet program.functions name = none →
          match_name program
            (build_static_init_map (program.functions.map Prod.fst)) name = none := by
  intro program fn n1 n2 h1 h2 hne e1 e2
  have hc : 2 ≤ siCount fn (program.functions.map Prod.fst) :=
    two_le_countP _ _ n1 n2 h1 h2 hne (by simp [e1]) (by simp [e2])
  have hb := siFold_free fn (program.functions.map Prod.fst) ⟨[], []⟩ rfl rfl hc
  refine ⟨hb.2, ?_⟩
  intro name hext hnofun
  unfold match_name
  simp only [hnofun, hext]
  rw [show alistGet (build_static_init_map (program.functions.map Prod.fst)) fn
    = none from hb.2]

/-- Witness for C6 at a concrete secondary Program holding two
static initializers for filename `foo`: a third static-initializer
name for `foo` matches nothing. -/
theorem c6_witness :
    alistGet (build_static_init_map
        ["_GLOBAL__sub_I_foo.stdout.rel_tf_osx_builder.A.ii",
         "_GLOBAL__sub_I_foo.stdout.rel_tf_osx_builder.B.ii"]) "foo" = none
    ∧ match_name
        ⟨4, [("_GLOBAL__sub_I_foo.stdout.rel_tf_osx_builder.A.ii", ⟨1, []⟩),
             ("_GLOBAL__sub_I_foo.stdout.rel_tf_osx_builder.B.ii", ⟨2, []⟩)], []⟩
        (build_static_init_map
          ["_GLOBAL__sub_I_foo.stdout.rel_tf_osx_builder.A.ii",
           "_GLOBAL__sub_I_foo.stdout.rel_tf_osx_builder.B.ii"])
        "_GLOBAL__sub_I_foo.stdout.rel_tf_osx_builder.C.ii" = none :=
  ⟨(c6_static_init_unique
      ⟨4, [("_GLOBAL__sub_I_foo.stdout.rel_tf_osx_builder.A.ii", ⟨1, []⟩),
           ("_GLOBAL__sub_I_foo.stdout.rel_tf_osx_builder.B.ii", ⟨2, []⟩)], []⟩
      "foo" "_GLOBAL__sub_I_foo.stdout.rel_tf_osx_builder.A.ii"
      "_GLOBAL__sub_I_foo.stdout.rel_tf_osx_builder.B.ii"
      (by decide) (by decide) (by decide) (by decide) (by decide)).1,
   (c6_static_init_unique
      ⟨4, [("_GLOBAL__sub_I_foo.stdout.rel_tf_osx_builder.A.ii", ⟨1, []⟩),
           ("_GLOBAL__sub_I_foo.stdout.rel_tf_osx_builder.B.ii", ⟨2, []⟩)], []⟩
      "foo" "_GLOBAL__sub_I_foo.stdout.rel_tf_osx_builder.A.ii"
      "_GLOBAL__sub_I_foo.stdout.rel_tf_osx_builder.B.ii"
      (by decide) (by decide) (by decide) (by decide) (by decide)).2
     "_GLOBAL__sub_I_foo.stdout.rel_tf_osx_builder.C.ii" (by decide) (by decide)⟩

/-- Witness for C3 at `sub esp, 0x10` vs `sub esp, 0x20`: the probe
fires at position 0 and the comparator returns `Differs`. -/
theorem c3_witness :
    compare_functions decodeSubImm ⟨4, [], []⟩ ⟨4, [], []⟩
        ⟨4096, [131, 236, 16]⟩ ⟨4096, [131, 236, 32]⟩
      = PanicOr.ok (CompareResult.Differs [subEspImm8 16 4096] [subEspImm8 32 4096]) :=
  (c3_stack_depth_probe decodeSubImm ⟨4, [], []⟩ ⟨4, [], []⟩
    ⟨4096, [131, 236, 16]⟩ ⟨4096, [131, 236, 32]⟩ 0
    (subEspImm8 16 4096) (subEspImm8 32 4096)
    (fun i hi => absurd hi (Nat.not_lt_zero i))
    (by decide) (by decide) (by decide) (by decide)).1
    16 32 rfl rfl (by decide)
